import Mathlib

/-!
Verification development for the `sample_agent` streaming SSE demo
(`sample_agent/demo.py`, `sample_agent/events.py`, `sample_agent/agent.py`).

The embedding models the Python values that flow through the streaming
pipeline:
* `JVal` is a small JSON value universe covering the shapes that reach the
  `arguments` field of a tool call (strings, integers, objects);
* `jsonDumps` models `json.dumps` with its default separators
  (`", "` between members, `": "` after keys) and insertion-ordered keys;
* event classes, the tool-call fragment accumulator, the chunk classifier
  and the stream orchestrator are translated function by function from
  `demo.py` (the event classes in `events.py` are textually identical
  copies of the ones in `demo.py`).
-/

namespace SampleAgent

/-- JSON values, as they appear in tool-call `arguments`: a Python `str`,
`int`, or `dict` (insertion-ordered key/value list). -/
inductive JVal : Type where
  | s (v : String)
  | n (v : Int)
  | obj (fields : List (String × JVal))

mutual

/-- Decidable equality on `JVal` (written by hand because the automatic
derivation does not handle the nested `List (String × JVal)`). -/
def jvalDecEq : (a b : JVal) → Decidable (a = b)
  | JVal.s a, JVal.s b =>
      if h : a = b then Decidable.isTrue (by rw [h])
      else Decidable.isFalse (fun hh => h (by cases hh; rfl))
  | JVal.s _, JVal.n _ => Decidable.isFalse (fun h => JVal.noConfusion h)
  | JVal.s _, JVal.obj _ => Decidable.isFalse (fun h => JVal.noConfusion h)
  | JVal.n _, JVal.s _ => Decidable.isFalse (fun h => JVal.noConfusion h)
  | JVal.n a, JVal.n b =>
      if h : a = b then Decidable.isTrue (by rw [h])
      else Decidable.isFalse (fun hh => h (by cases hh; rfl))
  | JVal.n _, JVal.obj _ => Decidable.isFalse (fun h => JVal.noConfusion h)
  | JVal.obj _, JVal.s _ => Decidable.isFalse (fun h => JVal.noConfusion h)
  | JVal.obj _, JVal.n _ => Decidable.isFalse (fun h => JVal.noConfusion h)
  | JVal.obj a, JVal.obj b =>
      match jvalFieldsDecEq a b with
      | Decidable.isTrue h => Decidable.isTrue (by rw [h])
      | Decidable.isFalse h => Decidable.isFalse (fun hh => h (by cases hh; rfl))

/-- Decidable equality on JSON object field lists. -/
def jvalFieldsDecEq : (a b : List (String × JVal)) → Decidable (a = b)
  | [], [] => Decidable.isTrue rfl
  | [], _ :: _ => Decidable.isFalse (fun h => List.noConfusion h)
  | _ :: _, [] => Decidable.isFalse (fun h => List.noConfusion h)
  | (k1, v1) :: r1, (k2, v2) :: r2 =>
      if hk : k1 = k2 then
        match jvalDecEq v1 v2 with
        | Decidable.isTrue hv =>
            match jvalFieldsDecEq r1 r2 with
            | Decidable.isTrue hr => Decidable.isTrue (by rw [hk, hv, hr])
            | Decidable.isFalse hr =>
                Decidable.isFalse (fun h => hr (by injection h))
        | Decidable.isFalse hv =>
            Decidable.isFalse (fun h => by
              injection h with h1 h2
              injection h1 with ha hb
              exact hv hb)
      else
        Decidable.isFalse (fun h => by
          injection h with h1 h2
          injection h1 with ha hb
          exact hk ha)

end

instance : DecidableEq JVal := jvalDecEq

/-- Escaping of one character inside a JSON string literal, as performed by
`json.dumps` for the characters the repository actually sends. -/
def jsonEscapeChar (c : Char) : String :=
  if c = '\\' then "\\\\"
  else if c = '"' then "\\\""
  else if c = '\n' then "\\n"
  else if c = '\t' then "\\t"
  else if c = '\r' then "\\r"
  else String.singleton c

/-- JSON string-literal escaping (`json.dumps` on a `str`). -/
def jsonEscape (s : String) : String :=
  String.join (s.data.map jsonEscapeChar)

mutual

/-- `json.dumps(v)` with the Python default separators: object members are
joined with a comma and a space, and a key is followed by a colon and a
space, so `json.dumps({"a": 1})` is the nine-character string
`\x7b"a": 1\x7d` with braces at both ends. -/
def jsonDumps : JVal → String
  | JVal.s v => "\"" ++ jsonEscape v ++ "\""
  | JVal.n v => toString v
  | JVal.obj fs => "\x7b" ++ jsonDumpsFields fs ++ "\x7d"

/-- The comma-and-space separated member list of a JSON object. -/
def jsonDumpsFields : List (String × JVal) → String
  | [] => ""
  | [(k, v)] => "\"" ++ jsonEscape k ++ "\": " ++ jsonDumps v
  | (k, v) :: rest =>
      "\"" ++ jsonEscape k ++ "\": " ++ jsonDumps v ++ ", " ++ jsonDumpsFields rest

end

/-- The `arguments` normalization performed inside `to_sse` of
`ToolCallEvent`, `PartialToolCallEvent` and `ToolCallResponseEvent`
(`demo.py` lines 98-120, 129-151, 161-184; identical in `events.py`):
a value that is already a `str` is kept as-is, an empty `dict` becomes the
empty string, and every other value is passed to `json.dumps`. -/
def normalizeArgs : JVal → String
  | JVal.s v => v
  | JVal.obj [] => ""
  | a => jsonDumps a

/-- The `function` sub-dict of an outward tool-call dict:
`\x7b"name": ..., "arguments": ...\x7d`. -/
structure ToolFunction where
  name : String
  arguments : JVal
deriving DecidableEq

/-- The outward tool-call dict
`\x7b"id": ..., "type": "function", "function": \x7b...\x7d\x7d` built by
`demo.py`; every construction site populates all three keys, so the
`"function" in ...` / `"arguments" in ...` membership tests inside `to_sse`
are always true for these values. -/
structure ToolCallDict where
  id : String
  type : String
  function : ToolFunction
deriving DecidableEq

/-- The tool-call dict as it stands after one `to_sse` call on an event that
holds it.  `to_sse` takes a SHALLOW copy (`self.tool_call.copy()`), so the
nested `function` dict of the copy is the same object as the one stored in
the event; the assignment
`tool_call_copy["function"]["arguments"] = ...` therefore overwrites the
stored nested `arguments` with its normalized string form.  When the
arguments are already a string the `pass` branch performs no assignment and
the stored dict is unchanged, which coincides with this function because
`normalizeArgs` is the identity on strings. -/
def normalizeToolCall (tc : ToolCallDict) : ToolCallDict :=
  { tc with function := { tc.function with arguments := JVal.s (normalizeArgs tc.function.arguments) } }

/-- The JSON rendering of a tool-call dict, keys in construction order. -/
def toolCallJVal (tc : ToolCallDict) : JVal :=
  JVal.obj [("id", JVal.s tc.id), ("type", JVal.s tc.type),
    ("function", JVal.obj [("name", JVal.s tc.function.name),
                           ("arguments", tc.function.arguments)])]

/-- `if self.agent_name: data["agent_name"] = self.agent_name` — the
agent-name key is appended only when the value is truthy (neither `None`
nor the empty string). -/
def withAgent (fields : List (String × JVal)) : Option String → List (String × JVal)
  | some a => if a ≠ "" then fields ++ [("agent_name", JVal.s a)] else fields
  | none => fields

/-- One SSE frame: `f"data: \x7bjson.dumps(data)\x7d\n\n"`. -/
def sseFrame (data : JVal) : String := "data: " ++ jsonDumps data ++ "\n\n"

/-- `ToolCallEvent` from `demo.py` lines 92-120 (= `events.py` 80-108). -/
structure ToolCallEvent where
  tool_call : ToolCallDict
  agent_name : Option String
deriving DecidableEq

/-- `ToolCallEvent.to_sse`.  The first component is the returned SSE frame;
the second component is the event as stored AFTER the call: because the
copy is shallow, normalizing a non-string `arguments` writes through to the
nested `function` dict shared with `self.tool_call` (see
`normalizeToolCall`). -/
def ToolCallEvent.to_sse (e : ToolCallEvent) : String × ToolCallEvent :=
  let tc := normalizeToolCall e.tool_call
  (sseFrame (JVal.obj (withAgent [("type", JVal.s "tool_call"),
      ("tool_call", toolCallJVal tc)] e.agent_name)),
   { e with tool_call := tc })

/-- `PartialToolCallEvent` from `demo.py` lines 123-151 (= `events.py`
111-139). -/
structure PartialToolCallEvent where
  tool_call : ToolCallDict
  agent_name : Option String
deriving DecidableEq

/-- `PartialToolCallEvent.to_sse`; same normalization and same shallow-copy
write-through as `ToolCallEvent.to_sse`. -/
def PartialToolCallEvent.to_sse (e : PartialToolCallEvent) :
    String × PartialToolCallEvent :=
  let tc := normalizeToolCall e.tool_call
  (sseFrame (JVal.obj (withAgent [("type", JVal.s "partial_tool_call"),
      ("tool_call", toolCallJVal tc)] e.agent_name)),
   { e with tool_call := tc })

/-- `ToolCallResponseEvent` from `demo.py` lines 154-184 (= `events.py`
142-172). -/
structure ToolCallResponseEvent where
  tool_call : ToolCallDict
  response : String
  agent_name : Option String
deriving DecidableEq

/-- `ToolCallResponseEvent.to_sse`; same normalization and same
shallow-copy write-through as `ToolCallEvent.to_sse`. -/
def ToolCallResponseEvent.to_sse (e : ToolCallResponseEvent) :
    String × ToolCallResponseEvent :=
  let tc := normalizeToolCall e.tool_call
  (sseFrame (JVal.obj (withAgent [("type", JVal.s "tool_call_response"),
      ("tool_call", toolCallJVal tc), ("response", JVal.s e.response)]
      e.agent_name)),
   { e with tool_call := tc })

/-- The emitted `token_usage` payload
(`input_tokens`/`output_tokens`/`total_tokens`).  The optional `cost` key is
never added: it is guarded by `hasattr(usage_metadata, "cost")` and
`usage_metadata` is a `TypedDict` (a plain dict), which exposes keys, not
attributes. -/
structure Usage where
  input_tokens : Int
  output_tokens : Int
  total_tokens : Int
deriving DecidableEq

/-- The outward event union emitted by the stream orchestrator.  Each
constructor corresponds to one event class of `demo.py`; the constant
per-stream `agent_name` attached to the emitted events is elided here (the
orchestrator passes the same `agent_name` to every construction site, and
`UserMessageEvent` is constructed without one). -/
inductive Event : Type where
  | userMessage (message : String)
  | streamStarted
  | streamStopped
  | agentChoice (content : String)
  | agentChoiceReasoning (content : String)
  | toolCall (tc : ToolCallDict)
  | partialToolCall (tc : ToolCallDict)
  | toolCallResponse (tc : ToolCallDict) (response : String)
  | tokenUsage (u : Usage)
  | error (msg : String)
deriving DecidableEq

/-! ## Tool-call fragment shapes and the accumulator
(`_handle_node_output`, `demo.py` lines 318-472) -/

/-- The `function` entry of a raw upstream tool-call dict, when present and
itself a dict.  Each key may be absent (`Option`); a key mapped to JSON
`null` behaves exactly like the empty string in every truthiness test the
code performs, and is modelled as the empty string. -/
structure RawFunction where
  name : Option String
  arguments : Option JVal
deriving DecidableEq

/-- One raw upstream tool-call entry (a dict).  `id` is the `"id"` key when
present; `function` is the `"function"` key when present AND a dict (the
`isinstance(tool_call["function"], dict)` guard folds a non-dict value into
absence). -/
structure RawToolCall where
  id : Option String
  function : Option RawFunction
deriving DecidableEq

/-- `demo.py` 375-376: `tool_call_id = tool_call["id"] if present else ""`. -/
def extractId (tc : RawToolCall) : String := tc.id.getD ""

/-- `demo.py` 378-379: `tool_call["function"].get("name", "")` guarded by the
presence-and-dict check, else the initial `""`. -/
def extractName (tc : RawToolCall) : String :=
  match tc.function with
  | some f => f.name.getD ""
  | none => ""

/-- `demo.py` 381-382: `tool_call["function"].get("arguments", "")` guarded
by the presence-and-dict check, else the initial `""`. -/
def extractArgs (tc : RawToolCall) : JVal :=
  match tc.function with
  | some f => f.arguments.getD (JVal.s "")
  | none => JVal.s ""

/-- The whitespace set of Python `str.strip()` (space, newline, tab,
carriage return, vertical tab, form feed). -/
def pySpace (c : Char) : Bool :=
  c = ' ' || c = '\n' || c = '\t' || c = '\r' || c = '\x0b' || c = '\x0c'

/-- Python `str.strip()`: the string with leading and trailing whitespace
removed. -/
def pyStrip (s : String) : String :=
  String.mk (((s.data.dropWhile pySpace).reverse.dropWhile pySpace).reverse)

/-- The truthiness test of `demo.py` 423-424:
`tool_args and (isinstance(tool_args, str) and tool_args.strip() or
not isinstance(tool_args, str) and tool_args)` — for a string, truthy and
truthy after strip; for any other value, its own truthiness. -/
def meaningfulArgs : JVal → Bool
  | JVal.s v => decide (v ≠ "") && decide (pyStrip v ≠ "")
  | JVal.n v => decide (v ≠ 0) && decide (v ≠ 0)
  | JVal.obj fs => decide (fs ≠ []) && decide (fs ≠ [])

/-- The per-stream accumulator dict `partial_tool_call_state`.  The source
stores both kinds of entries in one dict: keys `f"tool_call_\x7bi\x7d"`
(modelled by the association list `slots`, keyed by the slot index `i`) and
the key `"emitted_ids"` (modelled by `emitted_ids`; the source reads it
with `.get("emitted_ids", set())`, so an absent key and an empty set are
indistinguishable and both are modelled by `[]`). -/
structure PState where
  slots : List (Nat × String × String)
  emitted_ids : List String
deriving DecidableEq

/-- Lookup of the `f"tool_call_\x7bi\x7d"` entry. -/
def lookupSlot : List (Nat × String × String) → Nat → Option (String × String)
  | [], _ => none
  | (j, p) :: rest, i => if j = i then some p else lookupSlot rest i

/-- Assignment `partial_tool_call_state[state_key] = \x7b"id": ..., "name":
...\x7d`. -/
def upsertSlot : List (Nat × String × String) → Nat → String → String →
    List (Nat × String × String)
  | [], i, tid, nm => [(i, tid, nm)]
  | (j, p) :: rest, i, tid, nm =>
      if j = i then (i, tid, nm) :: rest else (j, p) :: upsertSlot rest i tid nm

/-- `demo.py` 385-398: the identity bookkeeping for one fragment.  If the
fragment carries both a non-empty id and a non-empty name, the slot is
overwritten with them; otherwise, if the slot already has a recorded pair,
the missing pieces of the identity are filled in from it.  Returns the
state together with the effective `(id, name)` used for this fragment. -/
def identityStep (st : PState) (i : Nat) (tool_call_id tool_name : String) :
    PState × String × String :=
  if tool_call_id ≠ "" ∧ tool_name ≠ "" then
    ({ st with slots := upsertSlot st.slots i tool_call_id tool_name },
     tool_call_id, tool_name)
  else
    match lookupSlot st.slots i with
    | some p =>
        (st, (if tool_call_id = "" then p.1 else tool_call_id),
             (if tool_name = "" then p.2 else tool_name))
    | none => (st, tool_call_id, tool_name)

/-- `demo.py` 410-431: the emission decision.  First sighting of a truthy
id emits unconditionally and records the id in `emitted_ids`; otherwise a
fragment emits exactly when its arguments are meaningful (note the `elif`
does NOT require the id to be known — an empty-id fragment with non-empty
arguments also emits). -/
def emitStep (st : PState) (effId : String) (dict : ToolCallDict)
    (tool_args : JVal) : PState × List Event :=
  if effId ≠ "" ∧ effId ∉ st.emitted_ids then
    ({ st with emitted_ids := st.emitted_ids ++ [effId] },
     [Event.partialToolCall dict])
  else if meaningfulArgs tool_args then (st, [Event.partialToolCall dict])
  else (st, [])

/-- One iteration of the `for i, tool_call in enumerate(tool_calls)` loop
(`demo.py` 370-431): extract the fields, run the identity bookkeeping,
build the outward dict, and apply the emission decision. -/
def processFragment (st : PState) (i : Nat) (tc : RawToolCall) :
    PState × List Event :=
  let tool_args := extractArgs tc
  let r := identityStep st i (extractId tc) (extractName tc)
  let dict : ToolCallDict := ⟨r.2.1, "function", ⟨r.2.2, tool_args⟩⟩
  emitStep r.1 r.2.1 dict tool_args

/-- The effective id the loop uses for fragment `tc` at slot `i` in state
`st` (after identity inheritance). -/
def effId (st : PState) (i : Nat) (tc : RawToolCall) : String :=
  (identityStep st i (extractId tc) (extractName tc)).2.1

/-- The effective name the loop uses for fragment `tc` at slot `i` in state
`st` (after identity inheritance). -/
def effName (st : PState) (i : Nat) (tc : RawToolCall) : String :=
  (identityStep st i (extractId tc) (extractName tc)).2.2

/-- The whole `enumerate` loop, fragment `k` at slot index `i + k`. -/
def processFragments (st : PState) (i : Nat) :
    List RawToolCall → PState × List Event
  | [] => (st, [])
  | tc :: rest =>
      let r := processFragment st i tc
      let r2 := processFragments r.1 (i + 1) rest
      (r2.1, r.2 ++ r2.2)

/-! ## The chunk classifier (`_handle_node_output`) -/

/-- The `additional_kwargs` dict of a model-output message, abstracted to
the two observations the code makes of it: the value of its
`"tool_calls"` key when present, and whether any other key is present
(which together decide its truthiness). -/
structure AdditionalKwargs where
  tool_calls : Option (List RawToolCall)
  other_keys : Bool
deriving DecidableEq

/-- Python truthiness of the `additional_kwargs` dict: non-empty. -/
def AdditionalKwargs.nonempty (k : AdditionalKwargs) : Bool :=
  k.tool_calls.isSome || k.other_keys

/-- The legacy nested `token_usage` dict found in `response_metadata`, read
with `.get(..., 0)` on each key. -/
structure RespTokenUsage where
  prompt_tokens : Option Int
  completion_tokens : Option Int
  total_tokens : Option Int
deriving DecidableEq

/-- One model-output message (`AIMessageChunk` / `AIMessage`) as observed
by `_handle_node_output`:
* `content` — the text content (`""` when absent or falsy; a non-string
  content never passes the `isinstance(str)` guard, so it behaves like
  `""` here and is modelled by it);
* `reasoning` — `""` when the attribute is missing or falsy;
* `additional_kwargs`, `tool_calls`, `tool_call_chunks` — the three
  candidate tool-call sources (a missing attribute behaves like an empty
  value in every test performed and is modelled by the empty value);
* `usage_metadata` — its truthiness only: the emitted numbers are read with
  `getattr(..., 0)` from a `TypedDict` (a plain dict), which has no such
  attributes, so they are always the defaults `0`;
* `response_metadata_token_usage` — the `token_usage` entry of
  `response_metadata` when `response_metadata` is truthy and has that key
  (`none` otherwise). -/
structure NodeOutput where
  content : String
  reasoning : String
  additional_kwargs : AdditionalKwargs
  tool_calls : List RawToolCall
  tool_call_chunks : List RawToolCall
  usage_metadata : Bool
  response_metadata_token_usage : Option RespTokenUsage
deriving DecidableEq

/-- `demo.py` 354-368: which tool-call list the loop runs over.  The `if`
on a truthy `additional_kwargs` SHADOWS the two `elif` branches: when
`additional_kwargs` is non-empty, the loop input is its `"tool_calls"`
entry when present and the initial `[]` otherwise, and the standard
`tool_calls` / `tool_call_chunks` attributes are never consulted. -/
def selectToolCalls (m : NodeOutput) : List RawToolCall :=
  if m.additional_kwargs.nonempty then
    match m.additional_kwargs.tool_calls with
    | some l => l
    | none => []
  else if m.tool_calls ≠ [] then m.tool_calls
  else if m.tool_call_chunks ≠ [] then m.tool_call_chunks
  else []

/-- `_handle_node_output` (`demo.py` 318-472): content event, reasoning
event, the tool-call fragment loop, then up to two token-usage events.
The surrounding `try` never fires in this model: every field access is
defaulted (`getattr`/`get`/`in` with fallbacks), so the handler itself
raises nothing. -/
def handle_node_output (m : NodeOutput) (st : PState) : PState × List Event :=
  let contentEvs :=
    if m.content ≠ "" ∧ pyStrip m.content ≠ "" then [Event.agentChoice m.content]
    else []
  let reasonEvs :=
    if m.reasoning ≠ "" then [Event.agentChoiceReasoning m.reasoning] else []
  let r := processFragments st 0 (selectToolCalls m)
  let usage1 := if m.usage_metadata then [Event.tokenUsage ⟨0, 0, 0⟩] else []
  let usage2 :=
    match m.response_metadata_token_usage with
    | some tu =>
        [Event.tokenUsage ⟨tu.prompt_tokens.getD 0, tu.completion_tokens.getD 0,
           tu.total_tokens.getD 0⟩]
    | none => []
  (r.1, contentEvs ++ reasonEvs ++ r.2 ++ usage1 ++ usage2)

/-! ## The tool-result handler (`_handle_tool_message`) -/

/-- A `ToolMessage` as observed by `_handle_tool_message`
(`demo.py` 253-315).  The side channels: `ak_tool_call` is the
`"tool_call"` entry of `additional_kwargs` (a complete replacement
descriptor — `dict.update` with a full descriptor replaces the three keys),
`ak_arguments` its `"arguments"` entry, `ak_other` whether
`additional_kwargs` holds any other key, and `md_tool_call` the
`"tool_call"` entry of a truthy `metadata` dict (a truthy `metadata`
without that key has no effect and is modelled by `none`). -/
structure ToolMessage where
  tool_call_id : String
  content : String
  name : String
  ak_tool_call : Option ToolCallDict
  ak_arguments : Option JVal
  ak_other : Bool
  md_tool_call : Option ToolCallDict
deriving DecidableEq

/-- Python truthiness of the `additional_kwargs` dict of a `ToolMessage`. -/
def ToolMessage.akNonempty (m : ToolMessage) : Bool :=
  m.ak_tool_call.isSome || m.ak_arguments.isSome || m.ak_other

/-- The reconstructed descriptor of `demo.py` 272-293: start from
`\x7bid, "function", \x7bname, \x7b\x7d\x7d\x7d`, then apply the
side-channel overrides in source order. -/
def reconstructToolCall (m : ToolMessage) : ToolCallDict :=
  let d0 : ToolCallDict := ⟨m.tool_call_id, "function", ⟨m.name, JVal.obj []⟩⟩
  let d1 :=
    if m.akNonempty then
      match m.ak_tool_call with
      | some t => t
      | none => d0
    else d0
  let d2 :=
    if m.akNonempty then
      match m.ak_arguments with
      | some a => { d1 with function := { d1.function with arguments := a } }
      | none => d1
    else d1
  match m.md_tool_call with
  | some t => t
  | none => d2

/-- `_handle_tool_message` (`demo.py` 253-315): when both the id and the
name of the reconstructed descriptor are truthy, a `ToolCallEvent` is
yielded first, and its `to_sse` normalizes the nested `arguments` of the
SHARED descriptor dict in place (shallow-copy write-through, see
`normalizeToolCall`), so the subsequently constructed
`ToolCallResponseEvent` stores the normalized descriptor.  The `except`
branch is dead in this model: every extraction is defaulted. -/
def handle_tool_message (m : ToolMessage) : List Event :=
  let d := reconstructToolCall m
  if d.id ≠ "" ∧ d.function.name ≠ "" then
    [Event.toolCall d, Event.toolCallResponse (normalizeToolCall d) m.content]
  else
    [Event.toolCallResponse d m.content]

/-! ## The stream orchestrator (`stream_graph_execution`) -/

/-- One element of the inbound `messages` list, as touched by the
orchestrator: only the last element is read, and only its `"content"` key.
`withContent c` is a dict whose `"content"` value has text `c` (a `None`
content is falsy exactly like `""` and is modelled by it);
`noContentKey` is a dict without the key, whose subscript raises
`KeyError("content")`. -/
inductive MsgEntry : Type where
  | withContent (c : String)
  | noContentKey
deriving DecidableEq

/-- How the upstream `graph.astream` source finishes: normal exhaustion, or
a fatal error raised by the source itself (outside the per-chunk `try`). -/
inductive SourceEnd : Type where
  | normal
  | fatal (msg : String)
deriving DecidableEq

/-- The payload of one well-formed upstream chunk: an assistant message
(delta or final), a tool-execution result, or any other message type
(e.g. a `HumanMessage`), which matches neither `isinstance` branch and
emits nothing. -/
inductive ChunkPayload : Type where
  | ai (m : NodeOutput)
  | tool (m : ToolMessage)
  | other
deriving DecidableEq

/-- One upstream chunk: either a well-formed `(payload, metadata)` pair, or
one whose unpacking / field access raises (with `str(e) = msg`), which the
per-chunk `except` converts into a single `Error` event. -/
inductive Chunk : Type where
  | ok (p : ChunkPayload)
  | bad (msg : String)
deriving DecidableEq

/-- `getattr(tool_call, "id", "")` in the finalized-tool-call block
(`demo.py` 520): the entries of the `tool_calls` attribute are `ToolCall`
`TypedDict`s, i.e. plain dicts, which expose keys and not attributes, so
the default `""` is always returned. -/
def getattrId (_ : RawToolCall) : String := ""

/-- `getattr(tool_call, "name", "")` (`demo.py` 527); see `getattrId`. -/
def getattrName (_ : RawToolCall) : String := ""

/-- `getattr(tool_call, "args", \x7b\x7d)` (`demo.py` 528); see
`getattrId`. -/
def getattrArgs (_ : RawToolCall) : JVal := JVal.obj []

/-- The finalized-tool-call block (`demo.py` 517-537): for each entry of
the `tool_calls` attribute with a truthy, not-yet-accumulated id, record
the id and yield a `ToolCallEvent`.  `acc` is the key set of
`accumulated_tool_calls`. -/
def finalizedToolCalls (acc : List String) :
    List RawToolCall → List String × List Event
  | [] => (acc, [])
  | tc :: rest =>
      let tid := getattrId tc
      if tid ≠ "" ∧ tid ∉ acc then
        let d : ToolCallDict := ⟨tid, "function", ⟨getattrName tc, getattrArgs tc⟩⟩
        let r := finalizedToolCalls (tid :: acc) rest
        (r.1, Event.toolCall d :: r.2)
      else finalizedToolCalls acc rest

/-- The per-stream mutable state of the orchestrator: the key set of
`accumulated_tool_calls` and the accumulator dict
`partial_tool_call_state`. -/
structure OrchState where
  accumulated : List String
  pstate : PState
deriving DecidableEq

/-- Both dicts start empty (`demo.py` 492-494). -/
def initialOrchState : OrchState := ⟨[], ⟨[], []⟩⟩

/-- The body of the `async for chunk in graph.astream(...)` loop for one
chunk (`demo.py` 511-553), per-chunk `try` included. -/
def processChunk (s : OrchState) : Chunk → OrchState × List Event
  | Chunk.ok (ChunkPayload.ai m) =>
      let rf := finalizedToolCalls s.accumulated m.tool_calls
      let rn := handle_node_output m s.pstate
      (⟨rf.1, rn.1⟩, rf.2 ++ rn.2)
  | Chunk.ok (ChunkPayload.tool t) => (s, handle_tool_message t)
  | Chunk.ok ChunkPayload.other => (s, [])
  | Chunk.bad msg => (s, [Event.error ("Error processing chunk: " ++ msg)])

/-- The whole chunk loop, threading the mutable state. -/
def processChunks (s : OrchState) : List Chunk → OrchState × List Event
  | [] => (s, [])
  | ch :: rest =>
      let r := processChunk s ch
      let r2 := processChunks r.1 rest
      (r2.1, r.2 ++ r2.2)

/-- `stream_graph_execution` (`demo.py` 475-565) as the list of events it
emits.  The inputs are the inbound `messages` list, the chunks the
upstream source yields before it finishes, and how it finishes.
* An empty `messages` list makes `messages[-1]` raise
  `IndexError("list index out of range")` before anything is emitted; a
  last message without a `"content"` key raises `KeyError("content")`
  (whose `str` is the quoted key).  Both are caught by the outer `except`,
  which emits one `Error` and the terminal `StreamStopped`.
* Otherwise: optional `UserMessage`, `StreamStarted`, the per-chunk
  events, then — on normal exhaustion — `StreamStopped`, or — on a fatal
  source error — one `Error` followed by `StreamStopped`. -/
def stream_graph_execution (messages : List MsgEntry) (chunks : List Chunk)
    (ending : SourceEnd) : List Event :=
  match messages.getLast? with
  | none =>
      [Event.error "Fatal error during graph execution: list index out of range",
       Event.streamStopped]
  | some MsgEntry.noContentKey =>
      [Event.error "Fatal error during graph execution: 'content'",
       Event.streamStopped]
  | some (MsgEntry.withContent c) =>
      (if c ≠ "" then [Event.userMessage c] else []) ++ [Event.streamStarted] ++
      (processChunks initialOrchState chunks).2 ++
      (match ending with
       | SourceEnd.normal => [Event.streamStopped]
       | SourceEnd.fatal m =>
           [Event.error ("Fatal error during graph execution: " ++ m),
            Event.streamStopped])

/-! ## Structural lemmas -/

/-- Membership in a guarded singleton block. -/
theorem mem_ite_nil {α : Type} {P : Prop} [Decidable P] {l : List α} {x : α}
    (h : x ∈ if P then l else []) : x ∈ l := by
  split at h
  · exact h
  · exact absurd h (List.not_mem_nil x)

/-- The identity bookkeeping never touches `emitted_ids`. -/
theorem identityStep_emitted (st : PState) (i : Nat) (a b : String) :
    (identityStep st i a b).1.emitted_ids = st.emitted_ids := by
  unfold identityStep
  split
  · rfl
  · split <;> rfl

/-- The emission decision never touches the slots. -/
theorem emitStep_slots (st : PState) (f : String) (d : ToolCallDict) (a : JVal) :
    (emitStep st f d a).1.slots = st.slots := by
  unfold emitStep
  split
  · rfl
  · split <;> rfl

/-- The finalized-tool-call block emits nothing and records nothing,
because `getattr` on the dict-shaped entries always returns the default
empty id. -/
theorem finalizedToolCalls_eq (acc : List String) (l : List RawToolCall) :
    finalizedToolCalls acc l = (acc, []) := by
  induction l with
  | nil => rfl
  | cons tc rest ih => simpa [finalizedToolCalls, getattrId] using ih

/-- Every event of the emission decision is a `partialToolCall` carrying
the dict built for the fragment. -/
theorem mem_emitStep {st : PState} {f : String} {d : ToolCallDict} {a : JVal}
    {e : Event} (h : e ∈ (emitStep st f d a).2) : e = Event.partialToolCall d := by
  unfold emitStep at h
  split at h
  · simpa using h
  · split at h
    · simpa using h
    · exact absurd h (List.not_mem_nil e)

/-- Every event of one fragment iteration is a `partialToolCall`. -/
theorem mem_processFragment {st : PState} {i : Nat} {tc : RawToolCall}
    {e : Event} (h : e ∈ (processFragment st i tc).2) :
    ∃ d, e = Event.partialToolCall d :=
  ⟨_, mem_emitStep h⟩

/-- Every event of the fragment loop is a `partialToolCall`. -/
theorem mem_processFragments {l : List RawToolCall} :
    ∀ {st : PState} {i : Nat} {e : Event},
      e ∈ (processFragments st i l).2 → ∃ d, e = Event.partialToolCall d := by
  induction l with
  | nil => intro st i e h; exact absurd h (List.not_mem_nil e)
  | cons tc rest ih =>
      intro st i e h
      rcases List.mem_append.mp h with h1 | h2
      · exact mem_processFragment h1
      · exact ih h2

/-- Shape of the events of `_handle_node_output`: content, reasoning,
partial tool call, or token usage. -/
theorem mem_handle_node_output {m : NodeOutput} {st : PState} {e : Event}
    (he : e ∈ (handle_node_output m st).2) :
    (∃ c, e = Event.agentChoice c) ∨ (∃ c, e = Event.agentChoiceReasoning c) ∨
    (∃ d, e = Event.partialToolCall d) ∨ (∃ u, e = Event.tokenUsage u) := by
  have hd : (handle_node_output m st).2 =
      (if m.content ≠ "" ∧ pyStrip m.content ≠ "" then [Event.agentChoice m.content]
       else []) ++
      (if m.reasoning ≠ "" then [Event.agentChoiceReasoning m.reasoning] else []) ++
      (processFragments st 0 (selectToolCalls m)).2 ++
      (if m.usage_metadata then [Event.tokenUsage ⟨0, 0, 0⟩] else []) ++
      (match m.response_metadata_token_usage with
       | some tu =>
           [Event.tokenUsage ⟨tu.prompt_tokens.getD 0, tu.completion_tokens.getD 0,
              tu.total_tokens.getD 0⟩]
       | none => []) := rfl
  rw [hd] at he
  rcases List.mem_append.mp he with he1 | hu2
  · rcases List.mem_append.mp he1 with he2 | hu1
    · rcases List.mem_append.mp he2 with he3 | ht
      · rcases List.mem_append.mp he3 with hc | hr
        · have := mem_ite_nil hc
          simp only [List.mem_singleton] at this
          exact Or.inl ⟨_, this⟩
        · have := mem_ite_nil hr
          simp only [List.mem_singleton] at this
          exact Or.inr (Or.inl ⟨_, this⟩)
      · exact Or.inr (Or.inr (Or.inl (mem_processFragments ht)))
    · have := mem_ite_nil hu1
      simp only [List.mem_singleton] at this
      exact Or.inr (Or.inr (Or.inr ⟨_, this⟩))
  · revert hu2
    cases m.response_metadata_token_usage with
    | none => intro hu2; exact absurd hu2 (List.not_mem_nil e)
    | some tu =>
        intro hu2
        simp only [List.mem_singleton] at hu2
        exact Or.inr (Or.inr (Or.inr ⟨_, hu2⟩))

/-- Shape of the events of `_handle_tool_message`: a complete tool call or
a tool-call response. -/
theorem mem_handle_tool_message {m : ToolMessage} {e : Event}
    (he : e ∈ handle_tool_message m) :
    (∃ d, e = Event.toolCall d) ∨ (∃ d r, e = Event.toolCallResponse d r) := by
  simp only [handle_tool_message] at he
  split at he
  · rcases List.mem_cons.mp he with h | h
    · exact Or.inl ⟨_, h⟩
    · rcases List.mem_cons.mp h with h2 | h2
      · exact Or.inr ⟨_, _, h2⟩
      · exact absurd h2 (List.not_mem_nil e)
  · rcases List.mem_cons.mp he with h | h
    · exact Or.inr ⟨_, _, h⟩
    · exact absurd h (List.not_mem_nil e)

/-- No per-chunk event is a `streamStopped`. -/
theorem stop_not_mem_processChunk (s : OrchState) (ch : Chunk) :
    Event.streamStopped ∉ (processChunk s ch).2 := by
  intro h
  cases ch with
  | ok p =>
      cases p with
      | ai m =>
          have hd : (processChunk s (Chunk.ok (ChunkPayload.ai m))).2 =
              (finalizedToolCalls s.accumulated m.tool_calls).2 ++
              (handle_node_output m s.pstate).2 := rfl
          rw [hd, finalizedToolCalls_eq] at h
          simp only [List.nil_append] at h
          rcases mem_handle_node_output h with ⟨c, hc⟩ | ⟨c, hc⟩ | ⟨d, hc⟩ | ⟨u, hc⟩ <;>
            exact Event.noConfusion hc
      | tool t =>
          rcases mem_handle_tool_message h with ⟨d, hc⟩ | ⟨d, r, hc⟩ <;>
            exact Event.noConfusion hc
      | other => exact absurd h (List.not_mem_nil _)
  | bad msg =>
      simp only [processChunk, List.mem_singleton] at h
      exact Event.noConfusion h

/-- No event of the whole chunk loop is a `streamStopped`. -/
theorem stop_not_mem_processChunks (l : List Chunk) :
    ∀ (s : OrchState), Event.streamStopped ∉ (processChunks s l).2 := by
  induction l with
  | nil => intro s h; exact absurd h (List.not_mem_nil _)
  | cons ch rest ih =>
      intro s h
      rcases List.mem_append.mp h with h1 | h2
      · exact stop_not_mem_processChunk s ch h1
      · exact ih _ h2

/-- The chunk loop splits over list concatenation, threading the state. -/
theorem processChunks_append (l1 l2 : List Chunk) :
    ∀ (s : OrchState),
      processChunks s (l1 ++ l2) =
        ((processChunks (processChunks s l1).1 l2).1,
         (processChunks s l1).2 ++ (processChunks (processChunks s l1).1 l2).2) := by
  induction l1 with
  | nil => intro s; simp [processChunks]
  | cons ch rest ih =>
      intro s
      have h1 := ih (processChunk s ch).1
      simp only [List.cons_append, processChunks, List.append_eq] at h1 ⊢
      rw [h1]
      simp [List.append_assoc]

/-! ## Claim theorems -/

/-- C1: for every completed invocation of `stream_graph_execution` —
whether the inbound messages are malformed, the upstream chunk source is
exhausted normally, or the source raises a fatal error outside the
per-chunk boundary — the emitted event sequence contains exactly one
`StreamStopped`, and it is the final element. -/
theorem stream_stopped_exactly_once_terminal (messages : List MsgEntry)
    (chunks : List Chunk) (ending : SourceEnd) :
    (stream_graph_execution messages chunks ending).count Event.streamStopped = 1 ∧
    (stream_graph_execution messages chunks ending).getLast? =
      some Event.streamStopped := by
  have hP : Event.streamStopped ∉ (processChunks initialOrchState chunks).2 :=
    stop_not_mem_processChunks chunks initialOrchState
  cases hm : messages.getLast? with
  | none =>
      refine ⟨?_, ?_⟩ <;> simp [stream_graph_execution, hm, List.count_cons]
  | some me =>
      cases me with
      | noContentKey =>
          refine ⟨?_, ?_⟩ <;> simp [stream_graph_execution, hm, List.count_cons]
      | withContent c =>
          refine ⟨?_, ?_⟩
          · cases ending <;>
              · simp only [stream_graph_execution, hm, List.count_append]
                rw [List.count_eq_zero.mpr hP]
                split <;> simp [List.count_cons]
          · cases ending with
            | normal =>
                simp only [stream_graph_execution, hm]
                exact List.getLast?_concat _
            | fatal m =>
                simp only [stream_graph_execution, hm]
                rw [List.getLast?_append_of_ne_nil _ (by simp)]
                rfl

/-- C6: a chunk whose processing raises is converted into exactly one
`Error` event (with the human-readable message built from the exception
text), the accumulator state is untouched by it, all subsequent chunks are
still processed, and the stream still terminates normally with its
terminal `StreamStopped`. -/
theorem chunk_error_isolated (c : String) (pre post : List Chunk) (m : String) :
    stream_graph_execution [MsgEntry.withContent c] (pre ++ Chunk.bad m :: post)
        SourceEnd.normal =
      (if c ≠ "" then [Event.userMessage c] else []) ++ [Event.streamStarted] ++
      (processChunks initialOrchState pre).2 ++
      [Event.error ("Error processing chunk: " ++ m)] ++
      (processChunks (processChunks initialOrchState pre).1 post).2 ++
      [Event.streamStopped] := by
  have h2 : (processChunks initialOrchState (pre ++ Chunk.bad m :: post)).2 =
      (processChunks initialOrchState pre).2 ++
      (processChunks (processChunks initialOrchState pre).1
        (Chunk.bad m :: post)).2 := by
    rw [processChunks_append]
  have h3 : processChunks (processChunks initialOrchState pre).1
      (Chunk.bad m :: post) =
      ((processChunks (processChunks initialOrchState pre).1 post).1,
       Event.error ("Error processing chunk: " ++ m) ::
         (processChunks (processChunks initialOrchState pre).1 post).2) := by
    simp [processChunks, processChunk]
  simp only [stream_graph_execution, List.getLast?_singleton, h2, h3]
  simp [List.append_assoc]

/-- C2: serialization of `ToolCall`, `PartialToolCall` and
`ToolCallResponse` events normalizes the nested `function.arguments`
uniformly: a string passes through unchanged (so normalization is
idempotent), the empty dict becomes the empty string, a non-empty dict
becomes its compact JSON encoding (so `(a : 1)` becomes the string with
braces around `"a": 1`), and the SSE frame of each of the three event
kinds embeds exactly the normalized tool call. -/
theorem arguments_normalization_contract :
    (∀ v : String, normalizeArgs (JVal.s v) = v) ∧
    (∀ a : JVal, normalizeArgs (JVal.s (normalizeArgs a)) = normalizeArgs a) ∧
    normalizeArgs (JVal.obj []) = "" ∧
    (∀ (k : String) (v : JVal) (fs : List (String × JVal)),
      normalizeArgs (JVal.obj ((k, v) :: fs)) = jsonDumps (JVal.obj ((k, v) :: fs))) ∧
    normalizeArgs (JVal.obj [("a", JVal.n 1)]) = "\x7b\"a\": 1\x7d" ∧
    (∀ tc : ToolCallDict,
      (normalizeToolCall tc).function.arguments =
        JVal.s (normalizeArgs tc.function.arguments)) ∧
    (∀ e : ToolCallEvent,
      (e.to_sse).1 = sseFrame (JVal.obj (withAgent [("type", JVal.s "tool_call"),
        ("tool_call", toolCallJVal (normalizeToolCall e.tool_call))] e.agent_name))) ∧
    (∀ e : PartialToolCallEvent,
      (e.to_sse).1 = sseFrame (JVal.obj (withAgent [("type", JVal.s "partial_tool_call"),
        ("tool_call", toolCallJVal (normalizeToolCall e.tool_call))] e.agent_name))) ∧
    (∀ e : ToolCallResponseEvent,
      (e.to_sse).1 = sseFrame (JVal.obj (withAgent [("type", JVal.s "tool_call_response"),
        ("tool_call", toolCallJVal (normalizeToolCall e.tool_call)),
        ("response", JVal.s e.response)] e.agent_name))) :=
  ⟨fun _ => rfl, fun a => rfl, rfl, fun _ _ _ => rfl, by decide, fun _ => rfl,
   fun _ => rfl, fun _ => rfl, fun _ => rfl⟩

/-- When the stored arguments are already a string, the normalization is
the identity on the whole dict. -/
theorem normalizeToolCall_str {tc : ToolCallDict} {v : String}
    (h : tc.function.arguments = JVal.s v) : normalizeToolCall tc = tc := by
  obtain ⟨i, t, f⟩ := tc
  obtain ⟨n, a⟩ := f
  change a = JVal.s v at h
  subst h
  rfl

/-- A tool-call event holding structured (non-string) arguments, for the
C9 counterexample. -/
def c9Event : ToolCallEvent :=
  ⟨⟨"t1", "function", ⟨"get_weather", JVal.obj [("a", JVal.n 1)]⟩⟩, some "root"⟩

/-- C9 counterexample: `to_sse` is NOT free of effects on the event — the
copy it takes is shallow, so serializing an event whose arguments are a
non-empty dict overwrites the stored nested `function.arguments` with the
JSON string, and the event value afterwards differs from the original. -/
theorem to_sse_mutates_stored_arguments : (c9Event.to_sse).2 ≠ c9Event := by
  decide

/-- C9 amended: `to_sse` is total (it always returns a frame) and never
changes the id, the type, the name, the agent name, or (for responses) the
response text; it leaves the event entirely unchanged whenever the stored
`arguments` are already a string; but when the arguments are a non-string
value the shallow copy aliases the nested `function` dict and serialization
overwrites the stored `arguments` with its normalized string form. -/
theorem to_sse_total_and_aliasing :
    (∀ e : ToolCallEvent,
      (e.to_sse).2.tool_call.id = e.tool_call.id ∧
      (e.to_sse).2.tool_call.type = e.tool_call.type ∧
      (e.to_sse).2.tool_call.function.name = e.tool_call.function.name ∧
      (e.to_sse).2.agent_name = e.agent_name ∧
      (∀ v, e.tool_call.function.arguments = JVal.s v → (e.to_sse).2 = e) ∧
      (e.to_sse).2.tool_call = normalizeToolCall e.tool_call) ∧
    (∀ e : PartialToolCallEvent,
      (e.to_sse).2.tool_call.id = e.tool_call.id ∧
      (e.to_sse).2.tool_call.type = e.tool_call.type ∧
      (e.to_sse).2.tool_call.function.name = e.tool_call.function.name ∧
      (e.to_sse).2.agent_name = e.agent_name ∧
      (∀ v, e.tool_call.function.arguments = JVal.s v → (e.to_sse).2 = e) ∧
      (e.to_sse).2.tool_call = normalizeToolCall e.tool_call) ∧
    (∀ e : ToolCallResponseEvent,
      (e.to_sse).2.tool_call.id = e.tool_call.id ∧
      (e.to_sse).2.tool_call.type = e.tool_call.type ∧
      (e.to_sse).2.tool_call.function.name = e.tool_call.function.name ∧
      (e.to_sse).2.agent_name = e.agent_name ∧
      (e.to_sse).2.response = e.response ∧
      (∀ v, e.tool_call.function.arguments = JVal.s v → (e.to_sse).2 = e) ∧
      (e.to_sse).2.tool_call = normalizeToolCall e.tool_call) := by
  refine ⟨fun e => ⟨rfl, rfl, rfl, rfl, ?_, rfl⟩,
          fun e => ⟨rfl, rfl, rfl, rfl, ?_, rfl⟩,
          fun e => ⟨rfl, rfl, rfl, rfl, rfl, ?_, rfl⟩⟩
  · intro v hv
    show ({ e with tool_call := normalizeToolCall e.tool_call } : ToolCallEvent) = e
    rw [normalizeToolCall_str hv]
  · intro v hv
    show ({ e with tool_call := normalizeToolCall e.tool_call } :
      PartialToolCallEvent) = e
    rw [normalizeToolCall_str hv]
  · intro v hv
    show ({ e with tool_call := normalizeToolCall e.tool_call } :
      ToolCallResponseEvent) = e
    rw [normalizeToolCall_str hv]

/-- Constant event with pre-stringified arguments (C9 witness input). -/
def c9StrEvent : ToolCallEvent :=
  ⟨⟨"t1", "function", ⟨"get_weather", JVal.s "\x7b\x7d"⟩⟩, some "root"⟩

/-- Constant partial event with pre-stringified arguments (C9 witness
input). -/
def c9StrPartialEvent : PartialToolCallEvent :=
  ⟨⟨"t2", "function", ⟨"get_weather", JVal.s ""⟩⟩, none⟩

/-- Constant response event with pre-stringified arguments (C9 witness
input). -/
def c9StrResponseEvent : ToolCallResponseEvent :=
  ⟨⟨"t3", "function", ⟨"get_weather", JVal.s "x"⟩⟩, "70 degrees", some "root"⟩

/-- Witness for the C9 amended theorem: concrete events whose arguments
are already strings are returned unchanged by serialization. -/
theorem to_sse_total_and_aliasing_witness :
    (c9StrEvent.to_sse).2 = c9StrEvent ∧
    (c9StrPartialEvent.to_sse).2 = c9StrPartialEvent ∧
    (c9StrResponseEvent.to_sse).2 = c9StrResponseEvent :=
  ⟨(to_sse_total_and_aliasing.1 c9StrEvent).2.2.2.2.1 _ rfl,
   (to_sse_total_and_aliasing.2.1 c9StrPartialEvent).2.2.2.2.1 _ rfl,
   (to_sse_total_and_aliasing.2.2 c9StrResponseEvent).2.2.2.2.2.1 _ rfl⟩

/-- Closed form of the events of the emission decision. -/
theorem emitStep_events_eq (st : PState) (f : String) (d : ToolCallDict)
    (a : JVal) :
    (emitStep st f d a).2 =
      if (f ≠ "" ∧ f ∉ st.emitted_ids) ∨ meaningfulArgs a = true
      then [Event.partialToolCall d] else [] := by
  unfold emitStep
  by_cases h1 : f ≠ "" ∧ f ∉ st.emitted_ids
  · simp [h1]
  · by_cases h2 : meaningfulArgs a = true <;> simp [h1, h2]

/-- Closed form of the `emitted_ids` set after the emission decision. -/
theorem emitStep_emitted_eq (st : PState) (f : String) (d : ToolCallDict)
    (a : JVal) :
    (emitStep st f d a).1.emitted_ids =
      if f ≠ "" ∧ f ∉ st.emitted_ids then st.emitted_ids ++ [f]
      else st.emitted_ids := by
  unfold emitStep
  by_cases h1 : f ≠ "" ∧ f ∉ st.emitted_ids
  · simp [h1]
  · by_cases h2 : meaningfulArgs a = true <;> simp [h1, h2]

/-- Closed form of the events of one fragment iteration. -/
theorem processFragment_events_eq (st : PState) (i : Nat) (tc : RawToolCall) :
    (processFragment st i tc).2 =
      if (effId st i tc ≠ "" ∧ effId st i tc ∉ st.emitted_ids) ∨
          meaningfulArgs (extractArgs tc) = true
      then [Event.partialToolCall ⟨effId st i tc, "function",
              ⟨effName st i tc, extractArgs tc⟩⟩]
      else [] := by
  have h := emitStep_events_eq
    (identityStep st i (extractId tc) (extractName tc)).1 (effId st i tc)
    ⟨effId st i tc, "function", ⟨effName st i tc, extractArgs tc⟩⟩
    (extractArgs tc)
  rw [identityStep_emitted] at h
  exact h

/-- Closed form of the `emitted_ids` set after one fragment iteration. -/
theorem processFragment_emitted_eq (st : PState) (i : Nat) (tc : RawToolCall) :
    ((processFragment st i tc).1).emitted_ids =
      if effId st i tc ≠ "" ∧ effId st i tc ∉ st.emitted_ids
      then st.emitted_ids ++ [effId st i tc] else st.emitted_ids := by
  have h := emitStep_emitted_eq
    (identityStep st i (extractId tc) (extractName tc)).1 (effId st i tc)
    ⟨effId st i tc, "function", ⟨effName st i tc, extractArgs tc⟩⟩
    (extractArgs tc)
  rw [identityStep_emitted] at h
  exact h

/-- The slot map after one fragment is the slot map after its identity
bookkeeping (the emission decision does not touch it). -/
theorem processFragment_slots (st : PState) (i : Nat) (tc : RawToolCall) :
    ((processFragment st i tc).1).slots =
      (identityStep st i (extractId tc) (extractName tc)).1.slots :=
  emitStep_slots _ _ _ _

/-- An upserted slot is found with exactly the written pair. -/
theorem lookupSlot_upsert (sl : List (Nat × String × String)) (i : Nat)
    (x y : String) : lookupSlot (upsertSlot sl i x y) i = some (x, y) := by
  induction sl with
  | nil => simp [upsertSlot, lookupSlot]
  | cons p rest ih =>
      obtain ⟨j, q⟩ := p
      by_cases hj : j = i
      · subst hj
        simp [upsertSlot, lookupSlot]
      · simp [upsertSlot, lookupSlot, hj, ih]

/-- The emission condition exactly as the claim states it: first sighting
of a non-empty id, or an id that is ALREADY KNOWN together with a
non-blank arguments fragment.  (Stated from the claim wording, for
comparison with the code.) -/
@[reducible]
def specEmitCond (st : PState) (f : String) (a : JVal) : Prop :=
  (f ≠ "" ∧ f ∉ st.emitted_ids) ∨ (f ∈ st.emitted_ids ∧ meaningfulArgs a = true)

/-- A fragment carrying no id and no name, only an arguments chunk. -/
def emptyIdFrag : RawToolCall := ⟨none, some ⟨none, some (JVal.s "x")⟩⟩

/-- C3 counterexample: a fragment whose effective id is empty and whose
arguments are non-blank IS emitted by the code, although the claimed
emission condition (first sighting of a non-empty id, or known id with
non-blank arguments) does not hold for it. -/
theorem partial_emitted_without_known_id :
    effId ⟨[], []⟩ 0 emptyIdFrag = "" ∧
    (processFragment ⟨[], []⟩ 0 emptyIdFrag).2 =
      [Event.partialToolCall ⟨"", "function", ⟨"", JVal.s "x"⟩⟩] ∧
    ¬ specEmitCond ⟨[], []⟩ (effId ⟨[], []⟩ 0 emptyIdFrag)
        (extractArgs emptyIdFrag) := by
  decide

/-- First fragment of the deduplication scenario: id and name with empty
arguments. -/
def dedupF1 : RawToolCall := ⟨some "t1", some ⟨some "get_weather", some (JVal.s "")⟩⟩

/-- Second fragment of the deduplication scenario: same id, non-empty
arguments. -/
def dedupF2 : RawToolCall :=
  ⟨some "t1", some ⟨some "get_weather", some (JVal.s "\x7b\"location\": \"sf\"\x7d")⟩⟩

/-- Third fragment of the deduplication scenario: same id, empty arguments
again. -/
def dedupF3 : RawToolCall := ⟨some "t1", some ⟨some "get_weather", some (JVal.s "")⟩⟩

/-- C3 amended: a `PartialToolCall` is emitted for a fragment iff either
(a) its effective id is non-empty and not yet in the emitted-id set, or
(b) its arguments fragment is non-blank — REGARDLESS of whether the id is
already known; every emission carries the dict built from the effective
identity; and on the deduplication scenario (same id with empty, then
non-empty, then empty arguments) exactly the first two fragments emit. -/
theorem accumulator_emission_rule :
    (∀ (st : PState) (i : Nat) (tc : RawToolCall),
      (((processFragment st i tc).2 ≠ []) ↔
        ((effId st i tc ≠ "" ∧ effId st i tc ∉ st.emitted_ids) ∨
          meaningfulArgs (extractArgs tc) = true)) ∧
      ((processFragment st i tc).2 = [] ∨
        (processFragment st i tc).2 =
          [Event.partialToolCall ⟨effId st i tc, "function",
             ⟨effName st i tc, extractArgs tc⟩⟩])) ∧
    (processFragment ⟨[], []⟩ 0 dedupF1).2.length = 1 ∧
    (processFragment (processFragment ⟨[], []⟩ 0 dedupF1).1 0 dedupF2).2.length
      = 1 ∧
    (processFragment
      (processFragment (processFragment ⟨[], []⟩ 0 dedupF1).1 0 dedupF2).1
      0 dedupF3).2 = [] := by
  refine ⟨fun st i tc => ⟨?_, ?_⟩, by decide, by decide, by decide⟩
  · rw [processFragment_events_eq]
    by_cases hc : (effId st i tc ≠ "" ∧ effId st i tc ∉ st.emitted_ids) ∨
        meaningfulArgs (extractArgs tc) = true
    · rw [if_pos hc]
      simp [hc]
    · rw [if_neg hc]
      simp [hc]
  · rw [processFragment_events_eq]
    split
    · exact Or.inr rfl
    · exact Or.inl rfl

/-- First fragment of the identity-inheritance scenario of the claim. -/
def exF1 : RawToolCall := ⟨some "t1", some ⟨some "get_weather", some (JVal.s "")⟩⟩

/-- Second fragment of the identity-inheritance scenario: explicit empty
id and name, with an arguments chunk. -/
def exF2 : RawToolCall := ⟨some "", some ⟨some "", some (JVal.s "\x7b\"location\"")⟩⟩

/-- C4: once a slot has a recorded pair, a later fragment at that slot
with an empty id (resp. name) inherits the recorded id (resp. name), and
processing any fragment leaves the slot holding a pair with non-empty
components whenever it held one; moreover, on the concrete scenario of the
claim, the second fragment gets effective identity `t1` /
`get_weather`. -/
theorem slot_identity_inheritance :
    (∀ (st : PState) (i : Nat) (tc : RawToolCall) (rid rnm : String),
      lookupSlot st.slots i = some (rid, rnm) →
      ((extractId tc = "" → effId st i tc = rid) ∧
       (extractName tc = "" → effName st i tc = rnm) ∧
       (rid ≠ "" → rnm ≠ "" →
         ∃ q : String × String,
           lookupSlot ((processFragment st i tc).1).slots i = some q ∧
           q.1 ≠ "" ∧ q.2 ≠ ""))) ∧
    effId (processFragment ⟨[], []⟩ 0 exF1).1 0 exF2 = "t1" ∧
    effName (processFragment ⟨[], []⟩ 0 exF1).1 0 exF2 = "get_weather" := by
  refine ⟨fun st i tc rid rnm hlk => ⟨?_, ?_, ?_⟩, by decide, by decide⟩
  · intro ha
    unfold effId identityStep
    rw [if_neg (fun hc => hc.1 ha), hlk]
    simp [ha]
  · intro hb
    unfold effName identityStep
    rw [if_neg (fun hc => hc.2 hb), hlk]
    simp [hb]
  · intro hrid hrnm
    by_cases hab : extractId tc ≠ "" ∧ extractName tc ≠ ""
    · refine ⟨(extractId tc, extractName tc), ?_, hab.1, hab.2⟩
      rw [processFragment_slots]
      unfold identityStep
      rw [if_pos hab]
      exact lookupSlot_upsert st.slots i _ _
    · refine ⟨(rid, rnm), ?_, hrid, hrnm⟩
      rw [processFragment_slots]
      unfold identityStep
      rw [if_neg hab, hlk]
      exact hlk

/-- A state with one recorded slot, for the C4 witness. -/
def c4State : PState := ⟨[(0, "t1", "get_weather")], []⟩

/-- Witness for C4: on the recorded slot `(t1, get_weather)` and the
explicit empty-identity fragment, both identity fields are inherited and
the slot still holds a non-empty pair afterwards. -/
theorem slot_identity_inheritance_witness :
    effId c4State 0 exF2 = "t1" ∧
    effName c4State 0 exF2 = "get_weather" ∧
    ∃ q : String × String,
      lookupSlot ((processFragment c4State 0 exF2).1).slots 0 = some q ∧
      q.1 ≠ "" ∧ q.2 ≠ "" :=
  ⟨(slot_identity_inheritance.1 c4State 0 exF2 "t1" "get_weather" rfl).1 rfl,
   (slot_identity_inheritance.1 c4State 0 exF2 "t1" "get_weather" rfl).2.1 rfl,
   (slot_identity_inheritance.1 c4State 0 exF2 "t1" "get_weather" rfl).2.2
     (by decide) (by decide)⟩

/-- C10: the emitted-id set only ever receives non-empty ids — a fragment
whose effective id is empty changes nothing in the set, even when it emits
because its arguments are non-blank; and a fragment whose non-empty
effective id is not yet in the set always triggers a first-sighting
emission and appends exactly that id. -/
theorem emitted_ids_stay_nonempty :
    ∀ (st : PState) (i : Nat) (tc : RawToolCall),
      ((∀ x ∈ st.emitted_ids, x ≠ "") →
        ∀ x ∈ ((processFragment st i tc).1).emitted_ids, x ≠ "") ∧
      (effId st i tc = "" →
        ((processFragment st i tc).1).emitted_ids = st.emitted_ids) ∧
      (effId st i tc = "" → meaningfulArgs (extractArgs tc) = true →
        (processFragment st i tc).2 =
          [Event.partialToolCall ⟨effId st i tc, "function",
             ⟨effName st i tc, extractArgs tc⟩⟩]) ∧
      (effId st i tc ≠ "" → effId st i tc ∉ st.emitted_ids →
        (processFragment st i tc).2 =
          [Event.partialToolCall ⟨effId st i tc, "function",
             ⟨effName st i tc, extractArgs tc⟩⟩] ∧
        ((processFragment st i tc).1).emitted_ids =
          st.emitted_ids ++ [effId st i tc]) := by
  intro st i tc
  refine ⟨?_, ?_, ?_, ?_⟩
  · intro hinv x hx
    rw [processFragment_emitted_eq] at hx
    by_cases hc : effId st i tc ≠ "" ∧ effId st i tc ∉ st.emitted_ids
    · rw [if_pos hc] at hx
      rcases List.mem_append.mp hx with h1 | h1
      · exact hinv x h1
      · simp only [List.mem_singleton] at h1
        subst h1
        exact hc.1
    · rw [if_neg hc] at hx
      exact hinv x hx
  · intro h0
    rw [processFragment_emitted_eq, if_neg (fun hc => hc.1 h0)]
  · intro h0 hm
    rw [processFragment_events_eq, if_pos (Or.inr hm)]
  · intro h0 hni
    exact ⟨by rw [processFragment_events_eq, if_pos (Or.inl ⟨h0, hni⟩)],
           by rw [processFragment_emitted_eq, if_pos ⟨h0, hni⟩]⟩

/-- Witness for C10: with `t0` already emitted, the fragment `t1` triggers
a first-sighting emission and appends `t1`; the invariant carries over;
an id-less fragment with non-blank arguments emits but changes nothing in
the set. -/
theorem emitted_ids_stay_nonempty_witness :
    (∀ x ∈ ((processFragment ⟨[], ["t0"]⟩ 0 dedupF1).1).emitted_ids, x ≠ "") ∧
    ((processFragment ⟨[], ["t0"]⟩ 0 dedupF1).2 =
      [Event.partialToolCall ⟨effId ⟨[], ["t0"]⟩ 0 dedupF1, "function",
         ⟨effName ⟨[], ["t0"]⟩ 0 dedupF1, extractArgs dedupF1⟩⟩] ∧
     ((processFragment ⟨[], ["t0"]⟩ 0 dedupF1).1).emitted_ids =
       ["t0"] ++ [effId ⟨[], ["t0"]⟩ 0 dedupF1]) ∧
    ((processFragment ⟨[], []⟩ 0 emptyIdFrag).1).emitted_ids = [] ∧
    (processFragment ⟨[], []⟩ 0 emptyIdFrag).2 =
      [Event.partialToolCall ⟨effId ⟨[], []⟩ 0 emptyIdFrag, "function",
         ⟨effName ⟨[], []⟩ 0 emptyIdFrag, extractArgs emptyIdFrag⟩⟩] :=
  ⟨(emitted_ids_stay_nonempty ⟨[], ["t0"]⟩ 0 dedupF1).1 (by decide),
   (emitted_ids_stay_nonempty ⟨[], ["t0"]⟩ 0 dedupF1).2.2.2 (by decide)
     (by decide),
   (emitted_ids_stay_nonempty ⟨[], []⟩ 0 emptyIdFrag).2.1 rfl,
   (emitted_ids_stay_nonempty ⟨[], []⟩ 0 emptyIdFrag).2.2.1 rfl (by decide)⟩

/-- C5: for a tool-execution result with no recoverable side-channel
arguments, when both the call id and the tool name are non-empty the
handler emits exactly one `ToolCall` (that id and name, empty-dict
arguments, whose serialized form is the empty string) followed by exactly
one `ToolCallResponse` pairing the same descriptor (arguments already
normalized to the empty string by the preceding serialization) with the
result content; when the id or the name is empty, the `ToolCall` is
skipped but the `ToolCallResponse` is still emitted. -/
theorem tool_result_roundtrip :
    ∀ (tid nm cnt : String),
      (tid ≠ "" → nm ≠ "" →
        handle_tool_message ⟨tid, cnt, nm, none, none, false, none⟩ =
          [Event.toolCall ⟨tid, "function", ⟨nm, JVal.obj []⟩⟩,
           Event.toolCallResponse ⟨tid, "function", ⟨nm, JVal.s ""⟩⟩ cnt] ∧
        normalizeArgs (JVal.obj []) = "") ∧
      (tid = "" ∨ nm = "" →
        handle_tool_message ⟨tid, cnt, nm, none, none, false, none⟩ =
          [Event.toolCallResponse ⟨tid, "function", ⟨nm, JVal.obj []⟩⟩ cnt]) := by
  intro tid nm cnt
  have hr : reconstructToolCall ⟨tid, cnt, nm, none, none, false, none⟩ =
      ⟨tid, "function", ⟨nm, JVal.obj []⟩⟩ := rfl
  constructor
  · intro h1 h2
    refine ⟨?_, rfl⟩
    simp [handle_tool_message, hr, h1, h2, normalizeToolCall, normalizeArgs]
  · intro h
    rcases h with h | h
    · subst h
      have hr0 : reconstructToolCall ⟨"", cnt, nm, none, none, false, none⟩ =
          ⟨"", "function", ⟨nm, JVal.obj []⟩⟩ := rfl
      simp [handle_tool_message, hr0]
    · subst h
      have hr0 : reconstructToolCall ⟨tid, cnt, "", none, none, false, none⟩ =
          ⟨tid, "function", ⟨"", JVal.obj []⟩⟩ := rfl
      simp [handle_tool_message, hr0]

/-- Witness for C5: the concrete round-trip of the claim, and a skipped
`ToolCall` for an empty id. -/
theorem tool_result_roundtrip_witness :
    handle_tool_message ⟨"t1", "70 degrees", "get_weather", none, none, false,
        none⟩ =
      [Event.toolCall ⟨"t1", "function", ⟨"get_weather", JVal.obj []⟩⟩,
       Event.toolCallResponse ⟨"t1", "function", ⟨"get_weather", JVal.s ""⟩⟩
         "70 degrees"] ∧
    handle_tool_message ⟨"", "70 degrees", "get_weather", none, none, false,
        none⟩ =
      [Event.toolCallResponse ⟨"", "function", ⟨"get_weather", JVal.obj []⟩⟩
         "70 degrees"] :=
  ⟨((tool_result_roundtrip "t1" "get_weather" "70 degrees").1 (by decide)
      (by decide)).1,
   (tool_result_roundtrip "" "get_weather" "70 degrees").2 (Or.inl rfl)⟩

/-- A model-output message whose `additional_kwargs` is non-empty but has
no `tool_calls` key, while the standard `tool_calls` attribute is
non-empty (C7 counterexample input). -/
def c7Msg : NodeOutput :=
  ⟨"", "", ⟨none, true⟩,
   [⟨some "t1", some ⟨some "get_weather", some (JVal.s "\x7b\x7d")⟩⟩],
   [], false, none⟩

/-- C7 counterexample: with a non-empty `additional_kwargs` lacking a
`tool_calls` key and a non-empty standard `tool_calls` attribute, the code
selects NO tool-call source at all (the truthy `additional_kwargs` shadows
both `elif` branches), no fragment reaches the accumulator and no event is
emitted — although processing the standard source would have emitted. -/
theorem toolcall_sources_not_priority_order :
    c7Msg.tool_calls ≠ [] ∧
    c7Msg.additional_kwargs.tool_calls = none ∧
    selectToolCalls c7Msg = [] ∧
    selectToolCalls c7Msg ≠ c7Msg.tool_calls ∧
    (handle_node_output c7Msg ⟨[], []⟩).2 = [] ∧
    (processFragments ⟨[], []⟩ 0 c7Msg.tool_calls).2 ≠ [] := by
  decide

/-- C7 amended: the loop input is gated on the truthiness of the whole
`additional_kwargs` dict, not on a non-empty legacy entry — when
`additional_kwargs` is non-empty the legacy `tool_calls` entry (or `[]`
when the key is missing) is used and the standard/chunked attributes are
never consulted; only when `additional_kwargs` is empty does the standard
attribute win when it is non-empty, with the chunked attribute as the last
resort; sources are never merged, and the accumulator runs exactly over
the selected list. -/
theorem toolcall_source_selection :
    ∀ (m : NodeOutput),
      (m.additional_kwargs.nonempty = true →
        selectToolCalls m = (m.additional_kwargs.tool_calls).getD []) ∧
      (m.additional_kwargs.nonempty = false → m.tool_calls ≠ [] →
        selectToolCalls m = m.tool_calls) ∧
      (m.additional_kwargs.nonempty = false → m.tool_calls = [] →
        selectToolCalls m = m.tool_call_chunks) ∧
      (selectToolCalls m = [] ∨
       (∃ l, m.additional_kwargs.tool_calls = some l ∧ selectToolCalls m = l) ∨
       selectToolCalls m = m.tool_calls ∨
       selectToolCalls m = m.tool_call_chunks) ∧
      (∀ st : PState,
        (handle_node_output m st).1 =
          (processFragments st 0 (selectToolCalls m)).1) := by
  intro m
  refine ⟨?_, ?_, ?_, ?_, fun st => rfl⟩
  · intro h
    cases ht : m.additional_kwargs.tool_calls <;>
      simp [selectToolCalls, h, ht]
  · intro h h2
    simp [selectToolCalls, h, h2]
  · intro h h2
    by_cases h3 : m.tool_call_chunks = [] <;>
      simp [selectToolCalls, h, h2, h3]
  · by_cases h : m.additional_kwargs.nonempty = true
    · cases ht : m.additional_kwargs.tool_calls with
      | none => exact Or.inl (by simp [selectToolCalls, h, ht])
      | some l =>
          refine Or.inr (Or.inl ⟨l, ?_, ?_⟩)
          · rfl
          · simp [selectToolCalls, h, ht]
    · by_cases h2 : m.tool_calls = []
      · by_cases h3 : m.tool_call_chunks = []
        · exact Or.inl (by simp [selectToolCalls, h, h2, h3])
        · exact Or.inr (Or.inr (Or.inr (by simp [selectToolCalls, h, h2, h3])))
      · exact Or.inr (Or.inr (Or.inl (by simp [selectToolCalls, h, h2])))

/-- A message carrying only the legacy nested tool-calls entry (C7 witness
input). -/
def c7Legacy : NodeOutput := ⟨"", "", ⟨some [dedupF1], false⟩, [], [], false, none⟩

/-- A message carrying only the standard `tool_calls` attribute (C7
witness input). -/
def c7Standard : NodeOutput := ⟨"", "", ⟨none, false⟩, [dedupF1], [], false, none⟩

/-- A message carrying only the chunked `tool_call_chunks` attribute (C7
witness input). -/
def c7Chunked : NodeOutput := ⟨"", "", ⟨none, false⟩, [], [dedupF1], false, none⟩

/-- Witness for C7 amended: the three sources win in their respective
configurations. -/
theorem toolcall_source_selection_witness :
    selectToolCalls c7Legacy = [dedupF1] ∧
    selectToolCalls c7Standard = c7Standard.tool_calls ∧
    selectToolCalls c7Chunked = c7Chunked.tool_call_chunks :=
  ⟨(toolcall_source_selection c7Legacy).1 rfl,
   (toolcall_source_selection c7Standard).2.1 rfl (by decide),
   (toolcall_source_selection c7Chunked).2.2.1 rfl rfl⟩

/-- The position of an event kind in the per-chunk emission order that the
specification prescribes: content, then reasoning, then tool-call events,
then token usage.  (Lifecycle events never occur inside a chunk; a
per-chunk `Error` replaces the whole chunk output and is ranked last.) -/
def Event.rank : Event → Nat
  | Event.agentChoice _ => 0
  | Event.agentChoiceReasoning _ => 1
  | Event.toolCall _ => 2
  | Event.partialToolCall _ => 2
  | Event.toolCallResponse _ _ => 2
  | Event.tokenUsage _ => 3
  | Event.userMessage _ => 0
  | Event.streamStarted => 0
  | Event.streamStopped => 0
  | Event.error _ => 4

/-- A list of events of one single rank is rank-sorted. -/
theorem sorted_map_rank_const {l : List Event} {c : Nat}
    (h : ∀ e ∈ l, Event.rank e = c) :
    List.Sorted (· ≤ ·) (l.map Event.rank) := by
  induction l with
  | nil => simp
  | cons x xs ih =>
      rw [List.map_cons, List.sorted_cons]
      refine ⟨?_, ih fun e he => h e (List.mem_cons_of_mem _ he)⟩
      intro b hb
      rcases List.mem_map.mp hb with ⟨e, he, rfl⟩
      rw [h x (List.mem_cons_self _ _), h e (List.mem_cons_of_mem _ he)]

/-- Concatenating rank-sorted blocks with a cross bound stays
rank-sorted. -/
theorem sorted_map_rank_append {A B : List Event}
    (hA : List.Sorted (· ≤ ·) (A.map Event.rank))
    (hB : List.Sorted (· ≤ ·) (B.map Event.rank))
    (hAB : ∀ a ∈ A, ∀ b ∈ B, Event.rank a ≤ Event.rank b) :
    List.Sorted (· ≤ ·) ((A ++ B).map Event.rank) := by
  rw [List.map_append]
  refine List.pairwise_append.mpr ⟨hA, hB, ?_⟩
  intro a ha b hb
  rcases List.mem_map.mp ha with ⟨x, hx, rfl⟩
  rcases List.mem_map.mp hb with ⟨y, hy, rfl⟩
  exact hAB x hx y hy

/-- Five blocks of ranks 0, 1, 2, 3, 3 concatenate to a rank-sorted
list. -/
theorem sorted_rank_blocks (A B C D E : List Event)
    (hA : ∀ e ∈ A, Event.rank e = 0) (hB : ∀ e ∈ B, Event.rank e = 1)
    (hC : ∀ e ∈ C, Event.rank e = 2) (hD : ∀ e ∈ D, Event.rank e = 3)
    (hE : ∀ e ∈ E, Event.rank e = 3) :
    List.Sorted (· ≤ ·) ((A ++ B ++ C ++ D ++ E).map Event.rank) := by
  have hAB : ∀ e ∈ A ++ B, Event.rank e ≤ 1 := by
    intro e he
    rcases List.mem_append.mp he with he | he
    · have h2 := hA e he; omega
    · have h2 := hB e he; omega
  have hABC : ∀ e ∈ A ++ B ++ C, Event.rank e ≤ 2 := by
    intro e he
    rcases List.mem_append.mp he with he | he
    · have h2 := hAB e he; omega
    · have h2 := hC e he; omega
  have hABCD : ∀ e ∈ A ++ B ++ C ++ D, Event.rank e ≤ 3 := by
    intro e he
    rcases List.mem_append.mp he with he | he
    · have h2 := hABC e he; omega
    · have h2 := hD e he; omega
  have h1 : List.Sorted (· ≤ ·) ((A ++ B).map Event.rank) :=
    sorted_map_rank_append (sorted_map_rank_const hA) (sorted_map_rank_const hB)
      (fun a ha b hb => by have ha2 := hA a ha; have hb2 := hB b hb; omega)
  have h2 : List.Sorted (· ≤ ·) ((A ++ B ++ C).map Event.rank) :=
    sorted_map_rank_append h1 (sorted_map_rank_const hC)
      (fun a ha b hb => by have ha2 := hAB a ha; have hb2 := hC b hb; omega)
  have h3 : List.Sorted (· ≤ ·) ((A ++ B ++ C ++ D).map Event.rank) :=
    sorted_map_rank_append h2 (sorted_map_rank_const hD)
      (fun a ha b hb => by have ha2 := hABC a ha; have hb2 := hD b hb; omega)
  exact sorted_map_rank_append h3 (sorted_map_rank_const hE)
    (fun a ha b hb => by have ha2 := hABCD a ha; have hb2 := hE b hb; omega)

/-- C8: within any single chunk, the emitted events respect the order
content → reasoning → tool-call events → token-usage events, on every
path — including assistant chunks carrying a finalized tool-call list
alongside text content (the finalized block precedes the content handler
in the source, but its `getattr` probing of dict-shaped entries never
yields an id, so it emits nothing). -/
theorem chunk_events_ordered (s : OrchState) (ch : Chunk) :
    List.Sorted (· ≤ ·) (((processChunk s ch).2).map Event.rank) := by
  cases ch with
  | bad m => simp [processChunk]
  | ok p =>
      cases p with
      | other => simp [processChunk]
      | tool t =>
          have hmem : ∀ e ∈ handle_tool_message t, Event.rank e = 2 := by
            intro e he
            rcases mem_handle_tool_message he with ⟨d, rfl⟩ | ⟨d, r, rfl⟩ <;> rfl
          exact sorted_map_rank_const hmem
      | ai m =>
          have hd : (processChunk s (Chunk.ok (ChunkPayload.ai m))).2 =
              (handle_node_output m s.pstate).2 := by
            have h0 : (processChunk s (Chunk.ok (ChunkPayload.ai m))).2 =
                (finalizedToolCalls s.accumulated m.tool_calls).2 ++
                (handle_node_output m s.pstate).2 := rfl
            rw [h0, finalizedToolCalls_eq]
            rfl
          have he : (handle_node_output m s.pstate).2 =
              (if m.content ≠ "" ∧ pyStrip m.content ≠ ""
               then [Event.agentChoice m.content] else []) ++
              (if m.reasoning ≠ "" then [Event.agentChoiceReasoning m.reasoning]
               else []) ++
              (processFragments s.pstate 0 (selectToolCalls m)).2 ++
              (if m.usage_metadata then [Event.tokenUsage ⟨0, 0, 0⟩] else []) ++
              (match m.response_metadata_token_usage with
               | some tu =>
                   [Event.tokenUsage ⟨tu.prompt_tokens.getD 0,
                      tu.completion_tokens.getD 0, tu.total_tokens.getD 0⟩]
               | none => []) := rfl
          rw [hd, he]
          refine sorted_rank_blocks _ _ _ _ _ ?_ ?_ ?_ ?_ ?_
          · intro e hev
            have h2 := mem_ite_nil hev
            simp only [List.mem_singleton] at h2
            subst h2
            rfl
          · intro e hev
            have h2 := mem_ite_nil hev
            simp only [List.mem_singleton] at h2
            subst h2
            rfl
          · intro e hev
            rcases mem_processFragments hev with ⟨d, rfl⟩
            rfl
          · intro e hev
            have h2 := mem_ite_nil hev
            simp only [List.mem_singleton] at h2
            subst h2
            rfl
          · intro e hev
            revert hev
            cases m.response_metadata_token_usage with
            | none => intro hev; exact absurd hev (List.not_mem_nil e)
            | some tu =>
                intro hev
                simp only [List.mem_singleton] at hev
                subst hev
                rfl

end SampleAgent
